import Mathlib

/-!
Shallow embedding of the `mqtt-stresser` repository sources
(`src/report.go`, `src/worker.go`) and verification of the frozen claims.

Modelling conventions:
* Go `float64` values are modelled as `ℚ` (the computations under scrutiny
  are field arithmetic on finitely many values).
* Go `time.Duration` (an `int64` nanosecond count) is a structure holding
  an integer nanosecond count; `Duration.Seconds` mirrors
  `time.Duration.Seconds()`.
* Go's `map[float64]float64` result of `buildHistogram` is modelled as an
  association list in ascending key order (the Go code materialises the
  map from keys it sorted ascending; the map is consumed key-sorted).
* `sort.Float64s` sorts ascending in place; it is modelled by
  `List.insertionSort (· ≤ ·)`, which produces the same (unique) sorted
  permutation.
-/

namespace MqttStresser

/-- Event tag constant from `report.go`. -/
def ConnectFailedEvent : String := "ConnectFailed"

/-- Event tag constant from `report.go`. -/
def TimeoutExceededEvent : String := "TimeoutExceeded"

/-- Event tag constant from `report.go`. -/
def AbortedEvent : String := "Aborted"

/-- Event tag constant from `report.go`. -/
def CompletedEvent : String := "Completed"

/-- Event tag constant from `report.go`. -/
def ProgressReportEvent : String := "ProgressReport"

/-- Go `time.Duration`: an integer count of nanoseconds. -/
structure Duration where
  nanos : ℤ
deriving DecidableEq

/-- `time.Duration.Seconds()`: the duration as a (real-number) count of
seconds; modelled in `ℚ`. -/
def Duration.Seconds (d : Duration) : ℚ := (d.nanos : ℚ) / 1000000000

/-- Modelled from the spec: the per-worker `Result` record ("Outcome" in the
spec's data model, §3) is declared in a repository file not present under
`src/`; its fields are fixed by their uses in `src/report.go` and
`src/worker.go`: worker identity, event tag, error flag, error detail,
elapsed publish duration, count of published messages. -/
structure Result where
  WorkerId : ℕ
  Event : String
  Error : Bool
  ErrorMessage : Option String := none
  PublishTime : Duration := ⟨0⟩
  MessagesPublished : ℕ := 0
deriving DecidableEq

/-- `Summary` from `report.go`, with `float64` fields as `ℚ` and the
histogram map as an ascending-key association list. -/
structure Summary where
  Clients : ℕ
  TotalMessages : ℕ
  MessagesPublished : ℕ
  Errors : ℕ
  ErrorRate : ℚ
  Completed : ℕ
  InProgress : ℕ
  ConnectFailed : ℕ
  TimeoutExceeded : ℕ
  Aborted : ℕ
  PublishPerformance : List ℚ
  PublishPerformanceMedian : ℚ
  PublishPerformanceHistogram : List (ℚ × ℚ)
deriving DecidableEq

/-- `median` from `report.go`:
`(series[(len(series)-1)/2] + series[len(series)/2]) / 2`.
Out-of-range indexing (possible only for an empty slice, where Go would
panic) is modelled by the default value `0`. -/
def median (series : List ℚ) : ℚ :=
  (series.getD ((series.length - 1) / 2) 0 + series.getD (series.length / 2) 0) / 2

/-- The inner boundary scan of `buildHistogram` for one sample `v`:
`tmp` starts at the `float64` zero value and, for each `i` in
`0 ≤ i ≤ nBuckets`, is overwritten with `f1 = slowest + steps*(i+1)`
whenever `f0 ≤ v ≤ f1` where `f0 = slowest + steps*i`. -/
def bucketFor (slowest steps : ℚ) (nBuckets : ℕ) (v : ℚ) : ℚ :=
  (List.range (nBuckets + 1)).foldl
    (fun tmp (i : ℕ) =>
      if slowest + steps * (i : ℚ) ≤ v ∧ v ≤ slowest + steps * ((i : ℚ) + 1) then
        slowest + steps * ((i : ℚ) + 1)
      else tmp)
    0

/-- The cumulative pass of `buildHistogram`: walk the sorted bucket keys,
each key's value is its own raw count divided by `total`, plus the running
sum `prev` of all lower buckets. -/
def cumulHistogram (tmps : List ℚ) (total : ℕ) : List ℚ → ℚ → List (ℚ × ℚ)
  | [], _ => []
  | k :: ks, prev =>
    let cur := (tmps.count k : ℚ) / (total : ℚ) + prev
    (k, cur) :: cumulHistogram tmps total ks cur

/-- `buildHistogram` from `report.go`: `slowest = series[0]`,
`fastest = series[len(series)-1]`, 10 buckets of width
`(fastest-slowest)/10`; each sample is assigned the key produced by the
boundary scan `bucketFor`; the per-key counts are then emitted in
ascending key order as a cumulative distribution over `total`.
(The Go map's key set is exactly the set of distinct assigned keys;
`dedup` + ascending sort reproduces the sorted key list.) -/
def buildHistogram (series : List ℚ) (total : ℕ) : List (ℚ × ℚ) :=
  let slowest := series.getD 0 0
  let fastest := series.getD (series.length - 1) 0
  let steps := (fastest - slowest) / 10
  let tmps := series.map (bucketFor slowest steps 10)
  cumulHistogram tmps total (List.insertionSort (· ≤ ·) tmps.dedup) 0

/-- The accumulator state of `buildSummary`'s single result loop. -/
structure LoopState where
  nMessagesPublished : ℕ
  nErrors : ℕ
  nCompleted : ℕ
  nInProgress : ℕ
  nConnectFailed : ℕ
  nTimeoutExceeded : ℕ
  nAborted : ℕ
  publishPerformance : List ℚ
deriving DecidableEq

/-- One iteration of `buildSummary`'s loop over `results`, written
field-by-field: published messages always accumulate; `nErrors` counts
error-flagged results, and the `switch` on the event tag (whose cases are
the three distinct failure tags) increments the matching sub-counter;
`nCompleted`/`nInProgress` count by event tag alone; a throughput sample
`MessagesPublished / PublishTime.Seconds()` is appended for a `Completed`
or `ProgressReport` event. -/
def summStep (st : LoopState) (r : Result) : LoopState where
  nMessagesPublished := st.nMessagesPublished + r.MessagesPublished
  nErrors := st.nErrors + if r.Error then 1 else 0
  nCompleted := st.nCompleted + if r.Event == CompletedEvent then 1 else 0
  nInProgress := st.nInProgress + if r.Event == ProgressReportEvent then 1 else 0
  nConnectFailed :=
    st.nConnectFailed + if r.Error && (r.Event == ConnectFailedEvent) then 1 else 0
  nTimeoutExceeded :=
    st.nTimeoutExceeded + if r.Error && (r.Event == TimeoutExceededEvent) then 1 else 0
  nAborted := st.nAborted + if r.Error && (r.Event == AbortedEvent) then 1 else 0
  publishPerformance :=
    st.publishPerformance ++
      if r.Event == CompletedEvent || r.Event == ProgressReportEvent then
        [(r.MessagesPublished : ℚ) / r.PublishTime.Seconds]
      else []

/-- `buildSummary` from `report.go`. Returns `Except.error` for Go's
`errors.New` returns, `Except.ok` for the success path. -/
def buildSummary (nClient nMessages : ℕ) (results : List Result) :
    Except String Summary :=
  if results.length = 0 then .error "no results collected"
  else
    let totalMessages := nClient * nMessages
    let st := results.foldl summStep ⟨0, 0, 0, 0, 0, 0, 0, []⟩
    if st.publishPerformance.length = 0 then .error "no feasible results found"
    else
      let publishPerformance := List.insertionSort (· ≤ ·) st.publishPerformance
      let errorRate := (st.nErrors : ℚ) / (nClient : ℚ) * 100
      .ok
        { Clients := nClient
          TotalMessages := totalMessages
          MessagesPublished := st.nMessagesPublished
          Errors := st.nErrors
          ErrorRate := errorRate
          Completed := st.nCompleted
          InProgress := st.nInProgress
          ConnectFailed := st.nConnectFailed
          TimeoutExceeded := st.nTimeoutExceeded
          Aborted := st.nAborted
          PublishPerformance := publishPerformance
          PublishPerformanceMedian := median publishPerformance
          PublishPerformanceHistogram :=
            buildHistogram publishPerformance (st.nCompleted + st.nInProgress) }

/-!
Embedding of `src/worker.go`. The worker's interactions with the outside
world (hostname lookup, PEM parsing, the MQTT client) are abstracted into
a `WorkerEnv` of observation results; `Worker.run` is then the control
flow of `Worker.Run`, producing either a panic or the list of `Result`
records sent to `resultChan`.
-/

/-- The fields of `Worker` (from `worker.go`) that steer the control flow
of `Run`. `CAlen`/`Keylen` model `len(w.CA)`/`len(w.Key)`. -/
structure Worker where
  WorkerId : ℕ
  NumberOfMessages : ℕ
  CAlen : ℕ
  Keylen : ℕ
deriving DecidableEq

/-- Results of the worker's external interactions:
* `hostnameOk`: `os.Hostname()` returned without error;
* `caParsesOk`: `x509.CertPool.AppendCertsFromPEM(ca)` returned `true`;
* `keyPairOk` : `tls.X509KeyPair(certificate, privkey)` returned no error;
* `connectWaitCompleted`: the connect token's `WaitTimeout(w.Timeout)`
  returned `true` (i.e. the connect flow completed within the timeout;
  it returns `false` on timeout);
* `connectHasError`: the connect token's `Error()` was non-nil;
* `pubAck i`: the `i`-th publish token's `WaitTimeout` result;
* `publishTime`: the measured wall-clock duration of the publish loop. -/
structure WorkerEnv where
  hostnameOk : Bool
  caParsesOk : Bool
  keyPairOk : Bool
  connectWaitCompleted : Bool
  connectHasError : Bool
  connectErrMsg : String
  pubAck : ℕ → Bool
  publishTime : Duration

/-- `NewTLSConfig` from `worker.go`: fails with "CA is invalid" when the
CA PEM data does not parse, fails with the key-pair error when
`tls.X509KeyPair` rejects the certificate/key pair, succeeds otherwise.
(The successful `tls.Config` value itself is irrelevant to the claims and
is modelled as `Unit`.) -/
def NewTLSConfig (caParsesOk keyPairOk : Bool) : Except String Unit :=
  if !caParsesOk then .error "CA is invalid"
  else if !keyPairOk then .error "invalid certificate/key pair"
  else .ok ()

/-- What one call of `Worker.Run` does: either the goroutine panics
(taking the whole process down) or it sends a list of `Result` records to
`resultChan`. -/
inductive RunResult where
  | panicked (msg : String)
  | emitted (rs : List Result)
deriving DecidableEq

/-- The publish loop of `Worker.Run`: for `i` in `[0, NumberOfMessages)`,
publish, increment `publishedCount`, and observe (but do not act on) the
publish token's `WaitTimeout` result. -/
def publishLoop (ack : ℕ → Bool) (n : ℕ) : ℕ :=
  (List.range n).foldl
    (fun publishedCount i =>
      let _ackObserved := ack i
      publishedCount + 1)
    0

/-- The part of `Worker.Run` from the connect attempt on: the
`ConnectFailed` result is sent only when `token.WaitTimeout(w.Timeout)`
returned `true` AND `token.Error()` was non-nil (the `&&` in the source
short-circuits, so a timed-out wait falls through); otherwise the publish
loop runs, the client disconnects, and a `Completed` result is sent. -/
def Worker.runFromConnect (w : Worker) (env : WorkerEnv) : RunResult :=
  if env.connectWaitCompleted && env.connectHasError then
    .emitted
      [{ WorkerId := w.WorkerId
         Event := ConnectFailedEvent
         Error := true
         ErrorMessage := some env.connectErrMsg }]
  else
    let publishedCount := publishLoop env.pubAck w.NumberOfMessages
    .emitted
      [{ WorkerId := w.WorkerId
         Event := CompletedEvent
         Error := false
         PublishTime := env.publishTime
         MessagesPublished := publishedCount }]

/-- `Worker.Run` from `worker.go`: panic if `os.Hostname()` fails; if TLS
material is configured (`len(w.CA) > 0 || len(w.Key) > 0`), build the TLS
config and panic on any construction error; then attempt the connection
and continue as `runFromConnect`. -/
def Worker.run (w : Worker) (env : WorkerEnv) : RunResult :=
  if !env.hostnameOk then .panicked "hostname lookup failed"
  else if 0 < w.CAlen ∨ 0 < w.Keylen then
    match NewTLSConfig env.caParsesOk env.keyPairOk with
    | .error e => .panicked e
    | .ok _ => w.runFromConnect env
  else w.runFromConnect env

/-- Does a run emit (to `resultChan`) a result tagged `ConnectFailed`? -/
def emitsConnectFailed : RunResult → Bool
  | .panicked _ => false
  | .emitted rs => rs.any (fun r => r.Event == ConnectFailedEvent)

/-- Does a run emit (to `resultChan`) a result tagged `Completed`? -/
def emitsCompleted : RunResult → Bool
  | .panicked _ => false
  | .emitted rs => rs.any (fun r => r.Event == CompletedEvent)

/-!
Concrete inputs used by the claims' evaluations and witnesses.
-/

def r1C4 : Result :=
  { WorkerId := 0, Event := CompletedEvent, Error := false,
    PublishTime := ⟨1000000000⟩, MessagesPublished := 10 }

def r2C4 : Result :=
  { WorkerId := 1, Event := CompletedEvent, Error := false,
    PublishTime := ⟨2000000000⟩, MessagesPublished := 10 }

def r3C4 : Result :=
  { WorkerId := 2, Event := ConnectFailedEvent, Error := true }

def summaryC4 : Summary :=
  { Clients := 3, TotalMessages := 30, MessagesPublished := 20, Errors := 1,
    ErrorRate := 100 / 3, Completed := 2, InProgress := 0, ConnectFailed := 1,
    TimeoutExceeded := 0, Aborted := 0, PublishPerformance := [5, 10],
    PublishPerformanceMedian := 15 / 2,
    PublishPerformanceHistogram := [(11 / 2, 1 / 2), (21 / 2, 1)] }

def workerC1 : Worker := { WorkerId := 7, NumberOfMessages := 5, CAlen := 0, Keylen := 0 }

def envC1 : WorkerEnv :=
  { hostnameOk := true, caParsesOk := true, keyPairOk := true,
    connectWaitCompleted := false, connectHasError := true,
    connectErrMsg := "connect timeout", pubAck := fun _ => false,
    publishTime := ⟨3000000000⟩ }

def workerC8 : Worker := { WorkerId := 3, NumberOfMessages := 4, CAlen := 100, Keylen := 50 }

def envC8 : WorkerEnv :=
  { hostnameOk := true, caParsesOk := false, keyPairOk := true,
    connectWaitCompleted := true, connectHasError := false,
    connectErrMsg := "", pubAck := fun _ => true, publishTime := ⟨1000000000⟩ }

/-- The closed range `[slowest + steps*i, slowest + steps*(i+1)]` scanned at
index `i` of the boundary scan contains `v`. -/
def bucketMatch (slowest steps : ℚ) (i : ℕ) (v : ℚ) : Prop :=
  slowest + steps * i ≤ v ∧ v ≤ slowest + steps * (i + 1)

/-!
Characterisation of the accumulation loop of `buildSummary`.
-/

/-- A result is throughput-eligible when its event tag is `Completed` or
`ProgressReport` (the guard of the sample-appending branch). -/
def eligible (r : Result) : Bool :=
  r.Event == CompletedEvent || r.Event == ProgressReportEvent

/-- The throughput sample contributed by an eligible result. -/
def sampleOf (r : Result) : ℚ :=
  (r.MessagesPublished : ℚ) / r.PublishTime.Seconds

theorem foldl_summStep_nMessagesPublished (results : List Result) (st : LoopState) :
    (results.foldl summStep st).nMessagesPublished =
      st.nMessagesPublished + (results.map (·.MessagesPublished)).sum := by
  induction results generalizing st with
  | nil => simp
  | cons r rs ih => simp [List.foldl_cons, ih, summStep]; omega

theorem foldl_summStep_nErrors (results : List Result) (st : LoopState) :
    (results.foldl summStep st).nErrors = st.nErrors + results.countP (·.Error) := by
  induction results generalizing st with
  | nil => simp
  | cons r rs ih =>
    simp only [List.foldl_cons, ih, summStep, List.countP_cons]
    cases hr : r.Error <;> simp [hr]
    all_goals omega

theorem foldl_summStep_nCompleted (results : List Result) (st : LoopState) :
    (results.foldl summStep st).nCompleted =
      st.nCompleted + results.countP (fun r => r.Event == CompletedEvent) := by
  induction results generalizing st with
  | nil => simp
  | cons r rs ih =>
    simp only [List.foldl_cons, ih, summStep, List.countP_cons]
    cases hr : (r.Event == CompletedEvent) <;> simp [hr]
    all_goals omega

theorem foldl_summStep_nInProgress (results : List Result) (st : LoopState) :
    (results.foldl summStep st).nInProgress =
      st.nInProgress + results.countP (fun r => r.Event == ProgressReportEvent) := by
  induction results generalizing st with
  | nil => simp
  | cons r rs ih =>
    simp only [List.foldl_cons, ih, summStep, List.countP_cons]
    cases hr : (r.Event == ProgressReportEvent) <;> simp [hr]
    all_goals omega

theorem foldl_summStep_nConnectFailed (results : List Result) (st : LoopState) :
    (results.foldl summStep st).nConnectFailed =
      st.nConnectFailed +
        results.countP (fun r => r.Error && (r.Event == ConnectFailedEvent)) := by
  induction results generalizing st with
  | nil => simp
  | cons r rs ih =>
    simp only [List.foldl_cons, ih, summStep, List.countP_cons]
    cases hr : (r.Error && (r.Event == ConnectFailedEvent)) <;> simp [hr]
    all_goals omega

theorem foldl_summStep_nTimeoutExceeded (results : List Result) (st : LoopState) :
    (results.foldl summStep st).nTimeoutExceeded =
      st.nTimeoutExceeded +
        results.countP (fun r => r.Error && (r.Event == TimeoutExceededEvent)) := by
  induction results generalizing st with
  | nil => simp
  | cons r rs ih =>
    simp only [List.foldl_cons, ih, summStep, List.countP_cons]
    cases hr : (r.Error && (r.Event == TimeoutExceededEvent)) <;> simp [hr]
    all_goals omega

theorem foldl_summStep_nAborted (results : List Result) (st : LoopState) :
    (results.foldl summStep st).nAborted =
      st.nAborted + results.countP (fun r => r.Error && (r.Event == AbortedEvent)) := by
  induction results generalizing st with
  | nil => simp
  | cons r rs ih =>
    simp only [List.foldl_cons, ih, summStep, List.countP_cons]
    cases hr : (r.Error && (r.Event == AbortedEvent)) <;> simp [hr]
    all_goals omega

theorem foldl_summStep_publishPerformance (results : List Result) (st : LoopState) :
    (results.foldl summStep st).publishPerformance =
      st.publishPerformance ++ (results.filter eligible).map sampleOf := by
  induction results generalizing st with
  | nil => simp
  | cons r rs ih =>
    simp only [List.foldl_cons, ih, summStep]
    cases hr : eligible r <;>
      simp only [eligible] at hr <;>
      simp [List.filter_cons, hr, eligible, sampleOf, List.append_assoc]

/-!
Claim C2: failure conditions of `buildSummary`.
-/

theorem buildSummary_noFeasible (nClient nMessages : ℕ) (results : List Result)
    (h0 : results ≠ []) (hf : results.filter eligible = []) :
    buildSummary nClient nMessages results = Except.error "no feasible results found" := by
  have h0' : ¬(results.length = 0) := by simpa [List.length_eq_zero] using h0
  have hpp :
      (results.foldl summStep ⟨0, 0, 0, 0, 0, 0, 0, []⟩).publishPerformance =
        (results.filter eligible).map sampleOf := by
    simpa using foldl_summStep_publishPerformance results ⟨0, 0, 0, 0, 0, 0, 0, []⟩
  simp [buildSummary, h0', hpp, hf]

theorem buildSummary_ok_of (nClient nMessages : ℕ) (results : List Result)
    (h0 : results ≠ []) (hf : results.filter eligible ≠ []) :
    ∃ s, buildSummary nClient nMessages results = Except.ok s := by
  have h0' : ¬(results.length = 0) := by simpa [List.length_eq_zero] using h0
  have hpp :
      (results.foldl summStep ⟨0, 0, 0, 0, 0, 0, 0, []⟩).publishPerformance =
        (results.filter eligible).map sampleOf := by
    simpa using foldl_summStep_publishPerformance results ⟨0, 0, 0, 0, 0, 0, 0, []⟩
  have hf' : ¬(((results.filter eligible).map sampleOf).length = 0) := by
    simpa [List.length_eq_zero] using hf
  simp only [buildSummary, hpp]
  rw [if_neg h0', if_neg hf']
  exact ⟨_, rfl⟩


/-- C2: `buildSummary` fails with the `EmptyResultSet` condition (Go error
"no results collected") iff the result list is empty; it fails with the
`NoFeasibleSamples` condition (Go error "no feasible results found") iff the
list is non-empty but contains no result whose event is `Completed` or
`ProgressReport`; for every other input it succeeds with a `Summary`. -/
theorem buildSummary_failure_modes (nClient nMessages : ℕ) (results : List Result) :
    (buildSummary nClient nMessages results = Except.error "no results collected" ↔
        results = []) ∧
    (buildSummary nClient nMessages results = Except.error "no feasible results found" ↔
        results ≠ [] ∧
          ∀ r ∈ results, ¬(r.Event = CompletedEvent ∨ r.Event = ProgressReportEvent)) ∧
    ((results ≠ [] ∧
        ∃ r ∈ results, (r.Event = CompletedEvent ∨ r.Event = ProgressReportEvent)) ↔
      ∃ s, buildSummary nClient nMessages results = Except.ok s) := by
  have helig : ∀ r : Result,
      eligible r = true ↔ (r.Event = CompletedEvent ∨ r.Event = ProgressReportEvent) := by
    intro r; simp [eligible]
  by_cases h0 : results = []
  · subst h0
    exact ⟨by simp [buildSummary], by simp [buildSummary], by simp [buildSummary]⟩
  · by_cases hf : results.filter eligible = []
    · have hne := buildSummary_noFeasible nClient nMessages results h0 hf
      have hall :
          ∀ r ∈ results, ¬(r.Event = CompletedEvent ∨ r.Event = ProgressReportEvent) := by
        intro r hr
        have := List.filter_eq_nil_iff.mp hf r hr
        simpa [helig r] using this
      refine ⟨?_, ?_, ?_⟩
      · rw [hne]; simp [h0]
      · rw [hne]
        simp only [true_iff, Except.error.injEq, ne_eq, h0, not_false_iff, true_and]
        exact hall
      · constructor
        · rintro ⟨-, r, hr, hor⟩; exact absurd hor (hall r hr)
        · rintro ⟨s, hs⟩; rw [hne] at hs; exact Except.noConfusion hs
    · obtain ⟨s, hs⟩ := buildSummary_ok_of nClient nMessages results h0 hf
      have hex :
          ∃ r ∈ results, (r.Event = CompletedEvent ∨ r.Event = ProgressReportEvent) := by
        obtain ⟨r, hr⟩ := List.exists_mem_of_ne_nil _ hf
        exact ⟨r, (List.mem_filter.mp hr).1, (helig r).mp (List.mem_filter.mp hr).2⟩
      refine ⟨?_, ?_, ?_⟩
      · rw [hs]; simp [h0]
      · rw [hs]
        constructor
        · intro h; exact Except.noConfusion h
        · rintro ⟨-, hall⟩
          obtain ⟨r, hr, hor⟩ := hex
          exact absurd hor (hall r hr)
      · exact ⟨fun _ => ⟨s, hs⟩, fun _ => ⟨h0, hex⟩⟩

/-- C4: on the concrete scenario clientCount=3, perClientMessageCount=10 with
two Completed results (10 messages in 1s, 10 messages in 2s) and one
ConnectFailed error result, `buildSummary` succeeds with totalExpected=30,
totalPublished=20, errors=1, errorRate=100/3, completed=2, connectFailed=1,
sorted sample sequence [5, 10] and median 15/2 = 7.5. -/
theorem buildSummary_scenario :
    ∃ s, buildSummary 3 10 [r1C4, r2C4, r3C4] = Except.ok s ∧
      s.TotalMessages = 30 ∧ s.MessagesPublished = 20 ∧ s.Errors = 1 ∧
      s.ErrorRate = 100 / 3 ∧ s.Completed = 2 ∧ s.ConnectFailed = 1 ∧
      s.PublishPerformance = [5, 10] ∧ s.PublishPerformanceMedian = 15 / 2 := by
  refine ⟨_, rfl, ?_, ?_, ?_, ?_, ?_, ?_, ?_, ?_⟩ <;>
    norm_num [summStep, r1C4, r2C4, r3C4, CompletedEvent, ConnectFailedEvent,
      ProgressReportEvent, TimeoutExceededEvent, AbortedEvent, Duration.Seconds,
      median, List.insertionSort, List.orderedInsert]
  all_goals decide


theorem eligible_iff (r : Result) :
    eligible r = true ↔ (r.Event = CompletedEvent ∨ r.Event = ProgressReportEvent) := by
  simp [eligible]

theorem countP_eligible_split (results : List Result) :
    results.countP eligible =
      results.countP (fun r => r.Event == CompletedEvent) +
        results.countP (fun r => r.Event == ProgressReportEvent) := by
  induction results with
  | nil => simp
  | cons r rs ih =>
    simp only [List.countP_cons, ih, eligible]
    by_cases h1 : r.Event = CompletedEvent
    · have h2 : ¬r.Event = ProgressReportEvent := by rw [h1]; decide
      simp [h1, h2, CompletedEvent, ProgressReportEvent]
      omega
    · by_cases h2 : r.Event = ProgressReportEvent
      · simp [h1, h2, CompletedEvent, ProgressReportEvent]
        omega
      · simp [h1, h2]

theorem buildSummary_ok_inv (nClient nMessages : ℕ) (results : List Result) (s : Summary)
    (h : buildSummary nClient nMessages results = Except.ok s) :
    s.Clients = nClient ∧
    s.TotalMessages = nClient * nMessages ∧
    s.MessagesPublished = (results.map (·.MessagesPublished)).sum ∧
    s.Errors = results.countP (·.Error) ∧
    s.ErrorRate = (results.countP (·.Error) : ℚ) / (nClient : ℚ) * 100 ∧
    s.Completed = results.countP (fun r => r.Event == CompletedEvent) ∧
    s.InProgress = results.countP (fun r => r.Event == ProgressReportEvent) ∧
    s.ConnectFailed = results.countP (fun r => r.Error && (r.Event == ConnectFailedEvent)) ∧
    s.TimeoutExceeded =
      results.countP (fun r => r.Error && (r.Event == TimeoutExceededEvent)) ∧
    s.Aborted = results.countP (fun r => r.Error && (r.Event == AbortedEvent)) ∧
    s.PublishPerformance =
      List.insertionSort (· ≤ ·) ((results.filter eligible).map sampleOf) ∧
    s.PublishPerformanceMedian = median s.PublishPerformance ∧
    s.PublishPerformanceHistogram =
      buildHistogram s.PublishPerformance (s.Completed + s.InProgress) := by
  by_cases h0 : results.length = 0
  · rw [buildSummary, if_pos h0] at h
    exact Except.noConfusion h
  · rw [buildSummary] at h
    simp only [h0, if_false] at h
    by_cases hf :
        (results.foldl summStep ⟨0, 0, 0, 0, 0, 0, 0, []⟩).publishPerformance.length = 0
    · rw [if_pos hf] at h
      exact Except.noConfusion h
    · rw [if_neg hf] at h
      injection h with h
      subst h
      have hpp :
          (results.foldl summStep ⟨0, 0, 0, 0, 0, 0, 0, []⟩).publishPerformance =
            (results.filter eligible).map sampleOf := by
        simpa using foldl_summStep_publishPerformance results ⟨0, 0, 0, 0, 0, 0, 0, []⟩
      refine ⟨rfl, rfl, ?_, ?_, ?_, ?_, ?_, ?_, ?_, ?_, ?_, ?_, ?_⟩
      · simpa using foldl_summStep_nMessagesPublished results ⟨0, 0, 0, 0, 0, 0, 0, []⟩
      · simpa using foldl_summStep_nErrors results ⟨0, 0, 0, 0, 0, 0, 0, []⟩
      · have := foldl_summStep_nErrors results ⟨0, 0, 0, 0, 0, 0, 0, []⟩
        simp at this
        simp [this]
      · simpa using foldl_summStep_nCompleted results ⟨0, 0, 0, 0, 0, 0, 0, []⟩
      · simpa using foldl_summStep_nInProgress results ⟨0, 0, 0, 0, 0, 0, 0, []⟩
      · simpa using foldl_summStep_nConnectFailed results ⟨0, 0, 0, 0, 0, 0, 0, []⟩
      · simpa using foldl_summStep_nTimeoutExceeded results ⟨0, 0, 0, 0, 0, 0, 0, []⟩
      · simpa using foldl_summStep_nAborted results ⟨0, 0, 0, 0, 0, 0, 0, []⟩
      · rw [hpp]
      · rfl
      · rw [hpp]


theorem rangeElevenEval : List.range 11 = [0, 1, 2, 3, 4, 5, 6, 7, 8, 9, 10] := rfl

theorem buildHistogramSampleEval :
    buildHistogram [5, 10] 2 = [(11 / 2, 1 / 2), (21 / 2, 1)] := by
  norm_num [buildHistogram, bucketFor, rangeElevenEval, cumulHistogram,
    List.dedup_cons_of_mem, List.dedup_cons_of_not_mem, List.insertionSort,
    List.orderedInsert, List.count_cons, List.count_nil]


theorem buildSummaryScenarioEval :
    buildSummary 3 10 [r1C4, r2C4, r3C4] = Except.ok summaryC4 := by
  norm_num [buildSummary, summStep, summaryC4, r1C4, r2C4, r3C4, CompletedEvent,
    ConnectFailedEvent, ProgressReportEvent, TimeoutExceededEvent, AbortedEvent,
    Duration.Seconds, median, List.insertionSort, List.orderedInsert,
    buildHistogramSampleEval,
    (show ¬("ConnectFailed" : String) = "Completed" by decide),
    (show ¬("Completed" : String) = "ProgressReport" by decide),
    (show ¬("ConnectFailed" : String) = "ProgressReport" by decide),
    (show ¬("ConnectFailed" : String) = "TimeoutExceeded" by decide),
    (show ¬("ConnectFailed" : String) = "Aborted" by decide),
    (show ¬("Completed" : String) = "ConnectFailed" by decide),
    (show ¬("Completed" : String) = "TimeoutExceeded" by decide),
    (show ¬("Completed" : String) = "Aborted" by decide)]

theorem countP_subcounters_le (results : List Result) :
    results.countP (fun r => r.Error && (r.Event == ConnectFailedEvent)) +
        results.countP (fun r => r.Error && (r.Event == TimeoutExceededEvent)) +
        results.countP (fun r => r.Error && (r.Event == AbortedEvent)) ≤
      results.countP (·.Error) := by
  induction results with
  | nil => simp
  | cons r rs ih =>
    simp only [List.countP_cons]
    by_cases he : r.Error = true
    · by_cases h1 : r.Event = ConnectFailedEvent
      · have h2 : ¬r.Event = TimeoutExceededEvent := by rw [h1]; decide
        have h3 : ¬r.Event = AbortedEvent := by rw [h1]; decide
        simp [he, h1, h2, h3, (show ¬ConnectFailedEvent = TimeoutExceededEvent by decide),
          (show ¬ConnectFailedEvent = AbortedEvent by decide)]
        omega
      · by_cases h2 : r.Event = TimeoutExceededEvent
        · have h3 : ¬r.Event = AbortedEvent := by rw [h2]; decide
          simp [he, h1, h2, h3, (show ¬TimeoutExceededEvent = ConnectFailedEvent by decide),
            (show ¬TimeoutExceededEvent = AbortedEvent by decide)]
          omega
        · by_cases h3 : r.Event = AbortedEvent
          · simp [he, h1, h2, h3, (show ¬AbortedEvent = ConnectFailedEvent by decide),
              (show ¬AbortedEvent = TimeoutExceededEvent by decide)]
            omega
          · simp [he, h1, h2, h3]
            omega
    · simp [he]
      omega

/-- C10: for every result list accepted by `buildSummary`, the Errors counter
counts exactly the error-flagged results; each sub-category counter
(ConnectFailed, TimeoutExceeded, Aborted) counts only error-flagged results
bearing that event tag, so their sum is at most Errors; the Completed and
InProgress counters count purely by event tag (so an error-flagged result
with a Completed or ProgressReport event still increments them), and the
throughput-sample sequence still has one sample per such result
(length = Completed + InProgress). -/
theorem buildSummary_counter_invariants (nClient nMessages : ℕ) (results : List Result)
    (s : Summary) (h : buildSummary nClient nMessages results = Except.ok s) :
    s.Errors = results.countP (·.Error) ∧
    s.ConnectFailed = results.countP (fun r => r.Error && (r.Event == ConnectFailedEvent)) ∧
    s.TimeoutExceeded =
      results.countP (fun r => r.Error && (r.Event == TimeoutExceededEvent)) ∧
    s.Aborted = results.countP (fun r => r.Error && (r.Event == AbortedEvent)) ∧
    s.ConnectFailed + s.TimeoutExceeded + s.Aborted ≤ s.Errors ∧
    s.Completed = results.countP (fun r => r.Event == CompletedEvent) ∧
    s.InProgress = results.countP (fun r => r.Event == ProgressReportEvent) ∧
    s.PublishPerformance.length = s.Completed + s.InProgress := by
  obtain ⟨-, -, -, he, -, hc, hi, hcf, hte, hab, hpp, -, -⟩ :=
    buildSummary_ok_inv nClient nMessages results s h
  refine ⟨he, hcf, hte, hab, ?_, hc, hi, ?_⟩
  · rw [he, hcf, hte, hab]
    exact countP_subcounters_le results
  · rw [hpp, hc, hi, (List.perm_insertionSort _ _).length_eq, List.length_map,
      ← List.countP_eq_length_filter, countP_eligible_split]

theorem buildSummary_counter_invariants_witness :
    summaryC4.ConnectFailed + summaryC4.TimeoutExceeded + summaryC4.Aborted ≤
      summaryC4.Errors :=
  (buildSummary_counter_invariants 3 10 [r1C4, r2C4, r3C4] summaryC4
      buildSummaryScenarioEval).2.2.2.2.1

/-- C5: for every non-empty result list containing at least one Completed or
ProgressReport entry, `buildSummary` succeeds, its throughput-sample
sequence has length Completed + InProgress, is a permutation of the
published-count ÷ elapsed-seconds samples of the eligible results, and is
sorted ascending. -/
theorem buildSummary_sample_sequence (nClient nMessages : ℕ) (results : List Result)
    (h0 : results ≠ [])
    (hex : ∃ r ∈ results, (r.Event = CompletedEvent ∨ r.Event = ProgressReportEvent)) :
    ∃ s, buildSummary nClient nMessages results = Except.ok s ∧
      s.PublishPerformance.length = s.Completed + s.InProgress ∧
      s.PublishPerformance.Perm ((results.filter eligible).map sampleOf) ∧
      s.PublishPerformance.Sorted (· ≤ ·) := by
  have hf : results.filter eligible ≠ [] := by
    obtain ⟨r, hr, hor⟩ := hex
    intro hnil
    exact absurd ((eligible_iff r).mpr hor)
      (by simpa using List.filter_eq_nil_iff.mp hnil r hr)
  obtain ⟨s, hs⟩ := buildSummary_ok_of nClient nMessages results h0 hf
  obtain ⟨-, -, -, -, -, hc, hi, -, -, -, hpp, -, -⟩ :=
    buildSummary_ok_inv nClient nMessages results s hs
  refine ⟨s, hs, ?_, ?_, ?_⟩
  · rw [hpp, hc, hi, (List.perm_insertionSort _ _).length_eq, List.length_map,
      ← List.countP_eq_length_filter, countP_eligible_split]
  · rw [hpp]
    exact List.perm_insertionSort _ _
  · rw [hpp]
    exact List.sorted_insertionSort _ _

theorem buildSummary_sample_sequence_witness :
    ∃ s, buildSummary 1 10 [r1C4] = Except.ok s ∧
      s.PublishPerformance.length = s.Completed + s.InProgress ∧
      s.PublishPerformance.Perm (([r1C4].filter eligible).map sampleOf) ∧
      s.PublishPerformance.Sorted (· ≤ ·) :=
  buildSummary_sample_sequence 1 10 [r1C4] (by decide)
    ⟨r1C4, by decide, Or.inl (by decide)⟩

/-- C6: for every non-empty sample sequence of length n, `median` returns the
average of the elements at positions ⌊(n−1)/2⌋ and ⌊n/2⌋; in particular
median [5] = 5, median [1,2,3,4] = 5/2, and median [1,2,3] = 2. -/
theorem median_sorted_positions (s : List ℚ) (h : s ≠ []) :
    median s =
      (s.get ⟨(s.length - 1) / 2, by
          have hl := List.length_pos.mpr h
          omega⟩ +
        s.get ⟨s.length / 2, by
          have hl := List.length_pos.mpr h
          omega⟩) / 2 ∧
    median [5] = 5 ∧ median [1, 2, 3, 4] = 5 / 2 ∧ median [1, 2, 3] = 2 := by
  have hl := List.length_pos.mpr h
  have h1 : (s.length - 1) / 2 < s.length := by omega
  have h2 : s.length / 2 < s.length := by omega
  refine ⟨?_, by norm_num [median], by norm_num [median], by norm_num [median]⟩
  rw [median, List.getD_eq_getElem s 0 h1, List.getD_eq_getElem s 0 h2,
    List.get_eq_getElem, List.get_eq_getElem]

theorem median_sorted_positions_witness : median ([1, 2, 3] : List ℚ) = 2 :=
  (median_sorted_positions [1, 2, 3] (by decide)).2.2.2


theorem publishLoop_eq (ack : ℕ → Bool) (n : ℕ) : publishLoop ack n = n := by
  have h : ∀ (l : List ℕ) (acc : ℕ),
      l.foldl (fun publishedCount i => let _ackObserved := ack i; publishedCount + 1) acc =
        acc + l.length := by
    intro l
    induction l with
    | nil => simp
    | cons x xs ih => intro acc; simp [List.foldl_cons, ih]; omega
  simpa [publishLoop] using h (List.range n) 0

/-- C9: a worker that reaches the publish loop performs all `NumberOfMessages`
iterations regardless of the per-message acknowledgment results (`pubAck` is
arbitrary and only observed), counts every message as published, and emits a
single Completed result whose published count is exactly `NumberOfMessages`. -/
theorem worker_publish_loop_all_messages (w : Worker) (env : WorkerEnv)
    (hh : env.hostnameOk = true)
    (htls : (w.CAlen = 0 ∧ w.Keylen = 0) ∨ (env.caParsesOk = true ∧ env.keyPairOk = true))
    (hc : ¬(env.connectWaitCompleted = true ∧ env.connectHasError = true)) :
    publishLoop env.pubAck w.NumberOfMessages = w.NumberOfMessages ∧
    w.run env =
      RunResult.emitted
        [{ WorkerId := w.WorkerId, Event := CompletedEvent, Error := false,
           PublishTime := env.publishTime,
           MessagesPublished := w.NumberOfMessages }] := by
  refine ⟨publishLoop_eq _ _, ?_⟩
  have hc' : (env.connectWaitCompleted && env.connectHasError) = false := by
    cases hcw : env.connectWaitCompleted <;> cases hce : env.connectHasError <;>
      simp_all
  have hrc : w.runFromConnect env =
      RunResult.emitted
        [{ WorkerId := w.WorkerId, Event := CompletedEvent, Error := false,
           PublishTime := env.publishTime,
           MessagesPublished := w.NumberOfMessages }] := by
    rw [Worker.runFromConnect, hc']
    simp [publishLoop_eq]
  rcases htls with ⟨h1, h2⟩ | ⟨h1, h2⟩
  · rw [Worker.run, hh]
    simp only [Bool.not_true, Bool.false_eq_true, if_false]
    rw [if_neg (by omega), hrc]
  · rw [Worker.run, hh]
    simp only [Bool.not_true, Bool.false_eq_true, if_false]
    by_cases hmat : 0 < w.CAlen ∨ 0 < w.Keylen
    · rw [if_pos hmat]
      simp [NewTLSConfig, h1, h2, hrc]
    · rw [if_neg hmat, hrc]

theorem worker_publish_loop_all_messages_witness :
    publishLoop (fun _ => false) 5 = 5 ∧
    Worker.run { WorkerId := 1, NumberOfMessages := 5, CAlen := 0, Keylen := 0 }
        { hostnameOk := true, caParsesOk := true, keyPairOk := true,
          connectWaitCompleted := true, connectHasError := false,
          connectErrMsg := "", pubAck := fun _ => false,
          publishTime := ⟨2000000000⟩ } =
      RunResult.emitted
        [{ WorkerId := 1, Event := CompletedEvent, Error := false,
           PublishTime := ⟨2000000000⟩, MessagesPublished := 5 }] :=
  worker_publish_loop_all_messages
    { WorkerId := 1, NumberOfMessages := 5, CAlen := 0, Keylen := 0 }
    { hostnameOk := true, caParsesOk := true, keyPairOk := true,
      connectWaitCompleted := true, connectHasError := false,
      connectErrMsg := "", pubAck := fun _ => false, publishTime := ⟨2000000000⟩ }
    rfl (Or.inl ⟨rfl, rfl⟩) (by simp)

/-- C1 (evaluation at the failing input): a worker whose connect wait times
out (`token.WaitTimeout` returns `false`, here even with a pending connect
error) does NOT emit a ConnectFailed outcome: the `&&` in
`token.WaitTimeout(w.Timeout) && token.Error() != nil` short-circuits, the
publish loop runs anyway, and the worker emits a Completed outcome with
published count `NumberOfMessages`, contradicting the claim. -/
theorem worker_connect_timeout_behavior :
    workerC1.run envC1 =
      RunResult.emitted
        [{ WorkerId := 7, Event := CompletedEvent, Error := false,
           PublishTime := ⟨3000000000⟩, MessagesPublished := 5 }] ∧
    emitsConnectFailed (workerC1.run envC1) = false ∧
    emitsCompleted (workerC1.run envC1) = true := by
  decide

/-- C8 counterexample: a worker configured with CA/certificate/key material
whose CA data is invalid does not emit a ConnectFailed outcome — `Run`
panics (`panic(err)`), emitting nothing and taking the run down. -/
theorem worker_tls_failure_no_outcome :
    workerC8.run envC8 = RunResult.panicked "CA is invalid" ∧
    emitsConnectFailed (workerC8.run envC8) = false := by
  decide

/-- C8 (amended): for every worker configured with TLS material
(`len(CA) > 0 || len(Key) > 0`), a TLS-construction failure (invalid CA
data or a rejected certificate/key pair) makes `Run` panic before any
network attempt: no outcome is emitted, no messages are counted, and the
panic aborts the whole run rather than being isolated to the worker. -/
theorem worker_tls_failure_panics (w : Worker) (env : WorkerEnv)
    (hmat : 0 < w.CAlen ∨ 0 < w.Keylen)
    (hh : env.hostnameOk = true)
    (hfail : env.caParsesOk = false ∨ env.keyPairOk = false) :
    ∃ msg, w.run env = RunResult.panicked msg := by
  rw [Worker.run, hh]
  simp only [Bool.not_true, Bool.false_eq_true, if_false]
  rw [if_pos hmat]
  rcases hfail with hf | hf
  · exact ⟨"CA is invalid", by simp [NewTLSConfig, hf]⟩
  · cases hca : env.caParsesOk
    · exact ⟨"CA is invalid", by simp [NewTLSConfig, hca]⟩
    · exact ⟨"invalid certificate/key pair", by simp [NewTLSConfig, hca, hf]⟩

theorem worker_tls_failure_panics_witness :
    ∃ msg, workerC8.run envC8 = RunResult.panicked msg :=
  worker_tls_failure_panics workerC8 envC8 (Or.inl (by decide)) rfl (Or.inl rfl)


theorem bucketFor_zero (slowest steps v : ℚ) :
    bucketFor slowest steps 0 v =
      if slowest ≤ v ∧ v ≤ slowest + steps then slowest + steps else 0 := by
  norm_num [bucketFor, List.range_succ]

theorem bucketFor_succ (slowest steps : ℚ) (n : ℕ) (v : ℚ) :
    bucketFor slowest steps (n + 1) v =
      if slowest + steps * (n + 1) ≤ v ∧ v ≤ slowest + steps * (n + 2) then
        slowest + steps * (n + 2)
      else bucketFor slowest steps n v := by
  have h : List.range (n + 1 + 1) = List.range (n + 1) ++ [n + 1] := List.range_succ (n + 1)
  rw [bucketFor, h, List.foldl_append, List.foldl_cons, List.foldl_nil, ← bucketFor]
  have hc1 : ((n : ℚ) + 1 : ℚ) = ((n + 1 : ℕ) : ℚ) := by push_cast; ring
  have hc2 : ((n : ℚ) + 2 : ℚ) = (((n + 1 : ℕ) : ℚ) + 1) := by push_cast; ring
  rw [hc1, hc2]

theorem exists_last_match (slowest steps v : ℚ) (n : ℕ)
    (h0 : slowest ≤ v) (h1 : v ≤ slowest + steps * (n + 1)) :
    ∃ i, i ≤ n ∧ bucketMatch slowest steps i v ∧
      ∀ j, j ≤ n → bucketMatch slowest steps j v → j ≤ i := by
  induction n with
  | zero =>
    refine ⟨0, le_refl 0, ⟨by simpa using h0, by simpa using h1⟩, fun j hj _ => hj⟩
  | succ n ih =>
    by_cases hm : bucketMatch slowest steps (n + 1) v
    · exact ⟨n + 1, le_refl _, hm, fun j hj _ => hj⟩
    · have h1' : v ≤ slowest + steps * (n + 1) := by
        rcases not_and_or.mp hm with hna | hna
        · have hlt := lt_of_not_le hna
          push_cast at hlt ⊢
          linarith
        · exfalso
          apply hna
          push_cast at h1 ⊢
          linarith
      obtain ⟨i, hi, him, hmax⟩ := ih h1'
      refine ⟨i, Nat.le_succ_of_le hi, him, fun j hj hjm => ?_⟩
      rcases Nat.lt_succ_iff_lt_or_eq.mp (Nat.lt_succ_of_le hj) with hlt | heq
      · exact hmax j (Nat.lt_succ_iff.mp hlt) hjm
      · exact absurd (heq ▸ hjm) hm

theorem bucketFor_eq_of_last_match (slowest steps v : ℚ) (n i : ℕ)
    (hi : i ≤ n) (hm : bucketMatch slowest steps i v)
    (hmax : ∀ j, j ≤ n → bucketMatch slowest steps j v → j ≤ i) :
    bucketFor slowest steps n v = slowest + steps * (i + 1) := by
  induction n with
  | zero =>
    have hi0 : i = 0 := Nat.le_zero.mp hi
    subst hi0
    rw [bucketFor_zero, if_pos]
    · push_cast
      ring
    · obtain ⟨ha, hb⟩ := hm
      exact ⟨by simpa using ha, by simpa using hb⟩
  | succ n ih =>
    rw [bucketFor_succ]
    by_cases hm1 : bucketMatch slowest steps (n + 1) v
    · have hieq : i = n + 1 := Nat.le_antisymm hi (hmax (n + 1) (le_refl _) hm1)
      subst hieq
      rw [if_pos]
      · push_cast
        ring
      · obtain ⟨ha, hb⟩ := hm1
        constructor
        · push_cast at ha ⊢
          linarith
        · push_cast at hb ⊢
          linarith
    · have hi' : i ≤ n := by
        rcases Nat.lt_succ_iff_lt_or_eq.mp (Nat.lt_succ_of_le hi) with h | h
        · omega
        · exact absurd (h ▸ hm) hm1
      rw [if_neg]
      · exact ih hi' (fun j hj hjm => hmax j (Nat.le_succ_of_le hj) hjm)
      · intro hc
        apply hm1
        constructor
        · push_cast
          linarith [hc.1]
        · push_cast
          linarith [hc.2]

theorem cumulHistogram_key_mem (tmps : List ℚ) (total : ℕ) :
    ∀ (ks : List ℚ) (prev : ℚ) (p : ℚ × ℚ),
      p ∈ cumulHistogram tmps total ks prev → p.1 ∈ ks := by
  intro ks
  induction ks with
  | nil =>
    intro prev p hp
    simp [cumulHistogram] at hp
  | cons k ks ih =>
    intro prev p hp
    simp only [cumulHistogram] at hp
    rcases List.mem_cons.mp hp with h | h
    · rw [h]
      exact List.mem_cons_self k ks
    · exact List.mem_cons_of_mem _ (ih _ p h)

theorem cumulHistogram_chain (tmps : List ℚ) (total : ℕ) :
    ∀ (ks : List ℚ) (prev : ℚ),
      List.Chain' (fun p q : ℚ × ℚ => p.2 ≤ q.2) (cumulHistogram tmps total ks prev) := by
  intro ks
  induction ks with
  | nil => intro prev; simp [cumulHistogram]
  | cons k ks ih =>
    intro prev
    cases ks with
    | nil => simp [cumulHistogram]
    | cons k2 ks2 =>
      have h2 := ih ((tmps.count k : ℚ) / (total : ℚ) + prev)
      simp only [cumulHistogram] at h2 ⊢
      rw [List.chain'_cons]
      refine ⟨?_, h2⟩
      have hnn : (0 : ℚ) ≤ (tmps.count k2 : ℚ) / (total : ℚ) := by positivity
      linarith

theorem cumulHistogram_getLast_snd (tmps : List ℚ) (total : ℕ) :
    ∀ (ks : List ℚ) (prev : ℚ), ks ≠ [] →
      Option.map Prod.snd ((cumulHistogram tmps total ks prev).getLast?) =
        some (prev + (ks.map fun k => (tmps.count k : ℚ) / (total : ℚ)).sum) := by
  intro ks
  induction ks with
  | nil => intro prev h; exact absurd rfl h
  | cons k ks ih =>
    intro prev _
    cases ks with
    | nil =>
      simp [cumulHistogram]
      ring
    | cons k2 ks2 =>
      have h2 := ih ((tmps.count k : ℚ) / (total : ℚ) + prev) (by simp)
      simp only [cumulHistogram] at h2 ⊢
      rw [List.getLast?_cons_cons, h2]
      congr 1
      simp [List.sum_cons]
      ring

theorem sorted_getD_zero_le (l : List ℚ) (hs : l.Sorted (· ≤ ·)) (v : ℚ) (hv : v ∈ l) :
    l.getD 0 0 ≤ v := by
  cases l with
  | nil => cases hv
  | cons a t =>
    rcases List.mem_cons.mp hv with h | h
    · rw [h]
      simp
    · simpa using (List.sorted_cons.mp hs).1 v h

theorem sorted_le_getD_last (l : List ℚ) (hs : l.Sorted (· ≤ ·)) (v : ℚ) (hv : v ∈ l) :
    v ≤ l.getD (l.length - 1) 0 := by
  induction l with
  | nil => cases hv
  | cons a t ih =>
    cases t with
    | nil =>
      simp only [List.mem_singleton] at hv
      rw [hv]
      simp
    | cons b t2 =>
      have hstep : (a :: b :: t2).getD ((a :: b :: t2).length - 1) 0 =
          (b :: t2).getD ((b :: t2).length - 1) 0 := by
        simp [List.getD_cons_succ]
      have hts : (b :: t2).Sorted (· ≤ ·) := (List.sorted_cons.mp hs).2
      rcases List.mem_cons.mp hv with h | h
      · have hlastmem : (b :: t2).getD ((b :: t2).length - 1) 0 ∈ (b :: t2) := by
          have hb : (b :: t2).length - 1 < (b :: t2).length := by simp
          rw [List.getD_eq_getElem _ _ hb]
          exact List.getElem_mem hb
        have hle := (List.sorted_cons.mp hs).1 _ hlastmem
        rw [hstep, h]
        exact hle
      · rw [hstep]
        exact ih hts h

theorem sum_map_add_nat {α : Type} (l : List α) (f g : α → ℕ) :
    (l.map fun x => f x + g x).sum = (l.map f).sum + (l.map g).sum := by
  induction l with
  | nil => simp
  | cons a l ih =>
    simp [ih]
    omega

theorem sum_indicator_nodup (ks : List ℚ) (t : ℚ) (hnd : ks.Nodup) (ht : t ∈ ks) :
    (ks.map fun k => if k = t then 1 else 0).sum = 1 := by
  induction ks with
  | nil => cases ht
  | cons k ks ih =>
    rw [List.map_cons, List.sum_cons]
    rcases List.mem_cons.mp ht with h | h
    · have htk : t ∉ ks := by
        rw [h]
        exact (List.nodup_cons.mp hnd).1
      have hz : (ks.map fun x => if x = t then 1 else 0).sum = 0 := by
        apply List.sum_eq_zero
        intro x hx
        obtain ⟨y, hy, hxy⟩ := List.mem_map.mp hx
        rw [← hxy, if_neg]
        intro hyt
        exact htk (hyt ▸ hy)
      rw [if_pos h.symm, hz]
    · have hk : ¬(k = t) := by
        intro hkt
        exact (List.nodup_cons.mp hnd).1 (hkt ▸ h)
      rw [if_neg hk, ih (List.nodup_cons.mp hnd).2 h]

theorem sum_counts_eq_length (tmps : List ℚ) (ks : List ℚ) (hnd : ks.Nodup)
    (hcov : ∀ v ∈ tmps, v ∈ ks) :
    (ks.map fun k => tmps.count k).sum = tmps.length := by
  induction tmps with
  | nil => simp
  | cons t ts ih =>
    have hts : ∀ v ∈ ts, v ∈ ks := fun v hv => hcov v (List.mem_cons_of_mem _ hv)
    have hmem : t ∈ ks := hcov t (List.mem_cons_self _ _)
    have hcount : ∀ k : ℚ, (t :: ts).count k = ts.count k + if k = t then 1 else 0 := by
      intro k
      simp only [List.count_cons, beq_iff_eq]
      by_cases h : k = t
      · rw [if_pos h, if_pos h.symm]
      · rw [if_neg (fun hh => h hh.symm), if_neg h]
    calc (ks.map fun k => (t :: ts).count k).sum
        = (ks.map fun k => ts.count k + if k = t then 1 else 0).sum := by
          congr 1
          exact List.map_congr_left fun k _ => hcount k
      _ = (ks.map fun k => ts.count k).sum +
            (ks.map fun k => if k = t then 1 else 0).sum := sum_map_add_nat ks _ _
      _ = ts.length + 1 := by rw [ih hts, sum_indicator_nodup ks t hnd hmem]
      _ = (t :: ts).length := by simp

theorem buildHistogram_def (series : List ℚ) (total : ℕ) :
    buildHistogram series total =
      cumulHistogram
        (series.map (bucketFor (series.getD 0 0)
          ((series.getD (series.length - 1) 0 - series.getD 0 0) / 10) 10))
        total
        (List.insertionSort (· ≤ ·)
          ((series.map (bucketFor (series.getD 0 0)
            ((series.getD (series.length - 1) 0 - series.getD 0 0) / 10) 10)).dedup))
        0 := rfl

/-- C7: for a histogram built by `buildHistogram` from a non-empty sample
sequence with `total` equal to the number of samples (one sample per
throughput-eligible outcome), the cumulative values are non-decreasing in
ascending bucket-key order, the final cumulative value equals exactly 1
(the floating-point computation is modelled exactly in ℚ), and only bucket
keys with a positive sample count appear in the output (zero-count buckets
are omitted). -/
theorem buildHistogram_cumulative (series : List ℚ) (h : series ≠ []) :
    List.Chain' (fun p q : ℚ × ℚ => p.2 ≤ q.2) (buildHistogram series series.length) ∧
    Option.map Prod.snd ((buildHistogram series series.length).getLast?) = some 1 ∧
    ∀ p ∈ buildHistogram series series.length,
      0 < (series.map (bucketFor (series.getD 0 0)
          ((series.getD (series.length - 1) 0 - series.getD 0 0) / 10) 10)).count p.1 := by
  have htne : (series.map (bucketFor (series.getD 0 0)
      ((series.getD (series.length - 1) 0 - series.getD 0 0) / 10) 10)) ≠ [] := by
    simpa using h
  set tmps := series.map (bucketFor (series.getD 0 0)
      ((series.getD (series.length - 1) 0 - series.getD 0 0) / 10) 10) with htmps
  set keys := List.insertionSort (· ≤ ·) tmps.dedup with hkeys
  have hperm : keys.Perm tmps.dedup := List.perm_insertionSort _ _
  have hcov : ∀ v ∈ tmps, v ∈ keys := fun v hv =>
    hperm.mem_iff.mpr (List.mem_dedup.mpr hv)
  have hknd : keys.Nodup := hperm.nodup_iff.mpr (List.nodup_dedup _)
  have hkne : keys ≠ [] := by
    obtain ⟨x, hx⟩ := List.exists_mem_of_ne_nil _ htne
    exact List.ne_nil_of_mem (hcov x hx)
  refine ⟨?_, ?_, ?_⟩
  · rw [buildHistogram_def]
    exact cumulHistogram_chain _ _ _ _
  · rw [buildHistogram_def, cumulHistogram_getLast_snd _ _ _ _ hkne]
    congr 1
    have hlen : tmps.length = series.length := List.length_map _ _
    have hsum : (keys.map fun k => tmps.count k).sum = series.length := by
      rw [sum_counts_eq_length tmps keys hknd hcov, hlen]
    have hne0 : ((series.length : ℚ)) ≠ 0 := by
      have : series.length ≠ 0 := by simpa [List.length_eq_zero] using h
      exact_mod_cast this
    calc 0 + (keys.map fun k => (tmps.count k : ℚ) / (series.length : ℚ)).sum
        = (keys.map fun k => (tmps.count k : ℚ) * ((series.length : ℚ))⁻¹).sum := by
          simp [div_eq_mul_inv]
      _ = ((keys.map fun k => (tmps.count k : ℚ)).sum) * ((series.length : ℚ))⁻¹ :=
          List.sum_map_mul_right _ _ _
      _ = ((series.length : ℚ)) * ((series.length : ℚ))⁻¹ := by
          congr 1
          rw [show (fun k => ((tmps.count k : ℕ) : ℚ)) = (fun n : ℕ => (n : ℚ)) ∘ (fun k => tmps.count k) from rfl,
            ← List.map_map, ← Nat.cast_list_sum, hsum]
      _ = 1 := mul_inv_cancel₀ hne0
  · intro p hp
    rw [buildHistogram_def] at hp
    have hk : p.1 ∈ keys := cumulHistogram_key_mem _ _ _ _ p hp
    have hmem : p.1 ∈ tmps := List.mem_dedup.mp (hperm.mem_iff.mp hk)
    exact List.count_pos_iff.mpr hmem

theorem buildHistogramZeroTenEval :
    buildHistogram [0, 10] 2 = [(1, 1 / 2), (11, 1)] := by
  norm_num [buildHistogram, bucketFor, rangeElevenEval, cumulHistogram,
    List.dedup_cons_of_mem, List.dedup_cons_of_not_mem, List.insertionSort,
    List.orderedInsert, List.count_cons, List.count_nil]

/-- C3 counterexample: on the sorted sample sequence [0, 10] (min 0, max 10,
bucket width 1) the max sample 10 lies in both the 10th scanned range
[9, 10] and the extra 11th range [10, 11]; the scan keeps the later match,
so the key of the bucket holding the max sample is 11 > max = 10 — refuting
both the "smallest bucket / ties to the lower bucket" assignment and
"every bucket key is at most max". -/
theorem buildHistogram_key_not_le_max :
    buildHistogram [0, 10] 2 = [(1, 1 / 2), (11, 1)] ∧
    ¬(∀ p ∈ buildHistogram [0, 10] 2, p.1 ≤ 10) := by
  have hev := buildHistogramZeroTenEval
  refine ⟨hev, ?_⟩
  intro hall
  have h11 := hall (11, 1) (by rw [hev]; simp)
  norm_num at h11

/-- C3 (amended): for every sorted non-empty sample sequence with distinct
min and max, `buildHistogram` scans the 11 closed ranges
[min + i·w, min + (i+1)·w] for i = 0..10 with w = (max − min)/10, and
assigns each sample the upper bound of the LAST range of the ascending
scan containing it — boundary ties resolve to the higher bucket, not the
lower — so every bucket key of the returned histogram is
min + w·(i+1) for the greatest matching index i ≤ 10 of one of the
samples, and hence at most max + w (the max sample's key is max + w,
which exceeds max). -/
theorem buildHistogram_bucket_assignment (series : List ℚ) (total : ℕ)
    (hs : series.Sorted (· ≤ ·)) ( _hne : series ≠ [])
    (hlt : series.getD 0 0 < series.getD (series.length - 1) 0) :
    ∀ p ∈ buildHistogram series total,
      ∃ v ∈ series, ∃ i, i ≤ 10 ∧
        bucketMatch (series.getD 0 0)
          ((series.getD (series.length - 1) 0 - series.getD 0 0) / 10) i v ∧
        (∀ j, j ≤ 10 →
          bucketMatch (series.getD 0 0)
            ((series.getD (series.length - 1) 0 - series.getD 0 0) / 10) j v → j ≤ i) ∧
        p.1 = series.getD 0 0 +
          ((series.getD (series.length - 1) 0 - series.getD 0 0) / 10) * (i + 1) ∧
        p.1 ≤ series.getD (series.length - 1) 0 +
          (series.getD (series.length - 1) 0 - series.getD 0 0) / 10 := by
  intro p hp
  set slowest := series.getD 0 0 with hsl
  set fastest := series.getD (series.length - 1) 0 with hfa
  set steps := (fastest - slowest) / 10 with hst
  rw [buildHistogram_def] at hp
  have hk := cumulHistogram_key_mem _ _ _ _ p hp
  have hmem : p.1 ∈ series.map (bucketFor slowest steps 10) :=
    List.mem_dedup.mp ((List.perm_insertionSort _ _).mem_iff.mp hk)
  obtain ⟨v, hv, hbv⟩ := List.mem_map.mp hmem
  have h0 : slowest ≤ v := sorted_getD_zero_le series hs v hv
  have h1v : v ≤ fastest := sorted_le_getD_last series hs v hv
  have hsteps : 0 < steps := by
    rw [hst]
    have : 0 < fastest - slowest := by linarith
    positivity
  have h10 : fastest = slowest + steps * 10 := by
    rw [hst]
    field_simp
  obtain ⟨i, hi, him, hmax⟩ := exists_last_match slowest steps v 10 h0 (by
    push_cast
    rw [h10] at h1v
    linarith)
  have hbf := bucketFor_eq_of_last_match slowest steps v 10 i hi him hmax
  refine ⟨v, hv, i, hi, him, hmax, ?_, ?_⟩
  · rw [← hbv, hbf]
  · rw [← hbv, hbf]
    have hc : ((i : ℚ) + 1) ≤ 11 := by
      have : (i : ℚ) ≤ 10 := by exact_mod_cast hi
      linarith
    have hmul : steps * ((i : ℚ) + 1) ≤ steps * 11 := by
      exact mul_le_mul_of_nonneg_left hc (le_of_lt hsteps)
    calc slowest + steps * ((i : ℚ) + 1) ≤ slowest + steps * 11 := by linarith
      _ = fastest + steps := by
          rw [h10]
          ring

theorem buildHistogram_bucket_assignment_witness :
    ∃ v ∈ ([0, 10] : List ℚ), ∃ i, i ≤ 10 ∧
      bucketMatch (([0, 10] : List ℚ).getD 0 0)
        ((([0, 10] : List ℚ).getD (([0, 10] : List ℚ).length - 1) 0 -
          ([0, 10] : List ℚ).getD 0 0) / 10) i v ∧
      (∀ j, j ≤ 10 →
        bucketMatch (([0, 10] : List ℚ).getD 0 0)
          ((([0, 10] : List ℚ).getD (([0, 10] : List ℚ).length - 1) 0 -
            ([0, 10] : List ℚ).getD 0 0) / 10) j v → j ≤ i) ∧
      ((11 : ℚ), (1 : ℚ)).1 = ([0, 10] : List ℚ).getD 0 0 +
        ((([0, 10] : List ℚ).getD (([0, 10] : List ℚ).length - 1) 0 -
          ([0, 10] : List ℚ).getD 0 0) / 10) * (i + 1) ∧
      ((11 : ℚ), (1 : ℚ)).1 ≤ ([0, 10] : List ℚ).getD (([0, 10] : List ℚ).length - 1) 0 +
        (([0, 10] : List ℚ).getD (([0, 10] : List ℚ).length - 1) 0 -
          ([0, 10] : List ℚ).getD 0 0) / 10 :=
  buildHistogram_bucket_assignment [0, 10] 2 (by decide) (by decide) (by decide)
    (11, 1) (by rw [buildHistogramZeroTenEval]; simp)

theorem buildHistogram_cumulative_witness :
    List.Chain' (fun p q : ℚ × ℚ => p.2 ≤ q.2) (buildHistogram [2] [2].length) ∧
    Option.map Prod.snd ((buildHistogram [2] [2].length).getLast?) = some 1 ∧
    ∀ p ∈ buildHistogram [2] [2].length,
      0 < (([2] : List ℚ).map (bucketFor (([2] : List ℚ).getD 0 0)
          ((([2] : List ℚ).getD (([2] : List ℚ).length - 1) 0 -
            ([2] : List ℚ).getD 0 0) / 10) 10)).count p.1 :=
  buildHistogram_cumulative [2] (by decide)

end MqttStresser
